import Mathlib

/-!
Verification of the dareaquatics/syncHandler content-synchronization pipeline.

Strings are modelled as `List Char`; Go's `strings.Index` is `goIndex`
(first occurrence, `-1` when absent).  The marker-delimited document
patchers of `calendarSyncHandler.go` (`updateHTMLContent`),
`newsSyncHandler.go` (`updateNewsHTML`) and the unnamed legacy handler
(`updateHTMLFile`) are embedded as pure functions from the document and the
new inner content to a result value; the file-system and git side effects
of a run are tracked as boolean fields of a run-outcome record.
-/

set_option maxRecDepth 40000

/-- Go `strings.Index` returning an optional position: the least index at
which `sub` occurs in `s` (`some 0` for the empty pattern). -/
def goIndexN (s sub : List Char) : Option Nat :=
  if sub.isPrefixOf s then some 0
  else
    match s with
    | [] => none
    | _ :: t => (goIndexN t sub).map (· + 1)

/-- Go `strings.Index`: first occurrence of `sub` in `s`, `-1` when absent. -/
def goIndex (s sub : List Char) : Int :=
  match goIndexN s sub with
  | some n => (n : Int)
  | none => -1

/-- `sub` occurs in `s` starting at position `n`. -/
def Occurs (sub s : List Char) (n : Nat) : Prop :=
  ∃ p q, s = p ++ sub ++ q ∧ p.length = n

/-- Shared marker constant `startMarker` of both sync handlers. -/
def startMarker : List Char := "<!-- START UNDER HERE -->".toList

/-- Shared marker constant `endMarker` of both sync handlers. -/
def endMarker : List Char := "<!-- END AUTOMATION SCRIPT -->".toList

/-- Result of one patcher invocation: the returned `error`, a Go slice
out-of-range panic, or the pair `(changed, document-after-run)` where the
document is the written candidate when `changed` and the original
otherwise. -/
inductive PatchResult where
  | error (msg : List Char)
  | outOfRange
  | ok (changed : Bool) (doc : List Char)
deriving DecidableEq, Repr

/-- Core of `updateHTMLContent` (calendarSyncHandler.go lines 171-198),
parameterised by the marker constants it reads.  Mirrors the source:
`startIdx := strings.Index(html, startMarker) + len(startMarker)`,
`endIdx := strings.Index(html, endMarker)`, the (dead for `startIdx`)
`== -1` checks, the candidate `html[:startIdx] + "\n" + newContent + "\n"
+ html[endIdx:]`, and the no-change early return before any write. -/
def updateHTMLContentCore (startM endM html newContent : List Char) : PatchResult :=
  let startIdx : Int := goIndex html startM + (startM.length : Int)
  let endIdx : Int := goIndex html endM
  if startIdx = -1 ∨ endIdx = -1 then
    PatchResult.error ("markers not found in HTML".toList)
  else if 0 ≤ startIdx ∧ startIdx ≤ (html.length : Int) ∧
      0 ≤ endIdx ∧ endIdx ≤ (html.length : Int) then
    let updated := html.take startIdx.toNat ++ ('\n' :: newContent) ++ ('\n' :: html.drop endIdx.toNat)
    if updated = html then PatchResult.ok false html
    else PatchResult.ok true updated
  else PatchResult.outOfRange

/-- Core of `updateNewsHTML` (newsSyncHandler.go lines 273-312): identical
to the calendar patcher except that the candidate is
`html[:startIdx] + newContent + html[endIdx:]` with no added newlines. -/
def updateNewsHTMLCore (startM endM html newContent : List Char) : PatchResult :=
  let startIdx : Int := goIndex html startM + (startM.length : Int)
  let endIdx : Int := goIndex html endM
  if startIdx = -1 ∨ endIdx = -1 then
    PatchResult.error ("markers not found in html".toList)
  else if 0 ≤ startIdx ∧ startIdx ≤ (html.length : Int) ∧
      0 ≤ endIdx ∧ endIdx ≤ (html.length : Int) then
    let updated := html.take startIdx.toNat ++ newContent ++ html.drop endIdx.toNat
    if updated = html then PatchResult.ok false html
    else PatchResult.ok true updated
  else PatchResult.outOfRange

/-- Result of the legacy `updateHTMLFile`: error, slice panic, or the
content it writes (that function writes unconditionally). -/
inductive FileUpdateResult where
  | error (msg : List Char)
  | outOfRange
  | ok (written : List Char)
deriving DecidableEq, Repr

/-- Core of `updateHTMLFile` (unnamed legacy calendar handler, lines
150-163): same index computation and dead `-1` check, newline-wrapped
candidate, unconditional write. -/
def updateHTMLFileCore (startM endM contentStr eventHTML : List Char) : FileUpdateResult :=
  let startIdx : Int := goIndex contentStr startM + (startM.length : Int)
  let endIdx : Int := goIndex contentStr endM
  if startIdx = -1 ∨ endIdx = -1 then
    FileUpdateResult.error ("markers not found in HTML file".toList)
  else if 0 ≤ startIdx ∧ startIdx ≤ (contentStr.length : Int) ∧
      0 ≤ endIdx ∧ endIdx ≤ (contentStr.length : Int) then
    FileUpdateResult.ok
      (contentStr.take startIdx.toNat ++ ('\n' :: eventHTML) ++ ('\n' :: contentStr.drop endIdx.toNat))
  else FileUpdateResult.outOfRange

/-- `updateHTMLContent` of calendarSyncHandler.go with its marker constants. -/
def updateHTMLContent (html newContent : List Char) : PatchResult :=
  updateHTMLContentCore startMarker endMarker html newContent

/-- `updateNewsHTML` of newsSyncHandler.go with its marker constants. -/
def updateNewsHTML (html newContent : List Char) : PatchResult :=
  updateNewsHTMLCore startMarker endMarker html newContent

/-- `updateHTMLFile` of the unnamed legacy handler with its marker constants. -/
def updateHTMLFile (contentStr eventHTML : List Char) : FileUpdateResult :=
  updateHTMLFileCore startMarker endMarker contentStr eventHTML

/-- The candidate document built by the calendar patcher when the start
marker ends at `i + startM.length` and the end marker starts at `j`. -/
def calCandidate (startM html newContent : List Char) (i j : Nat) : List Char :=
  html.take (i + startM.length) ++ ('\n' :: newContent) ++ ('\n' :: html.drop j)

/-- The candidate document built by the news patcher. -/
def newsCandidate (startM html newContent : List Char) (i j : Nat) : List Char :=
  html.take (i + startM.length) ++ newContent ++ html.drop j

/-- Observable effects of one calendar run (main, calendarSyncHandler.go
lines 41-53): whether the target file was truncated/written, whether
git add/commit/push ran, and whether the run ended in `log.Fatalf`. -/
structure RunOutcome where
  persisted : Bool
  published : Bool
  fatalError : Bool
deriving DecidableEq, Repr

/-- Control flow of calendar `main` after `generateHTML`: the patcher
persists (truncate+write) exactly when the candidate differs, `main`
invokes `gitCommitAndPush` exactly when `modified`, errors are fatal. -/
def calendarMain (html newContent : List Char) : RunOutcome :=
  match updateHTMLContent html newContent with
  | PatchResult.error _ => ⟨false, false, true⟩
  | PatchResult.outOfRange => ⟨false, false, true⟩
  | PatchResult.ok changed _ => ⟨changed, changed, false⟩

/-- A calendar event (gocal.Event projected to the fields the handler
uses); `Start`/`End` are instants (the `In(loc)` conversion in
`fetchEvents` changes display location only, never the instant, so the
sort below is unaffected by it). -/
structure Event where
  Summary : List Char
  Start : Int
  End : Int
deriving DecidableEq, Repr

/-- The comparison under the `sort.Slice` call of `fetchEvents`
(lines 93-95): ascending by start instant. -/
def eventLE (a b : Event) : Prop := a.Start ≤ b.Start

instance : DecidableRel eventLE := fun a b => inferInstanceAs (Decidable (a.Start ≤ b.Start))

instance : IsTotal Event eventLE := ⟨fun a b => Int.le_total a.Start b.Start⟩

instance : IsTrans Event eventLE := ⟨fun _ _ _ => Int.le_trans⟩

/-- Pure part of `fetchEvents` (calendarSyncHandler.go lines 88-98): after
the per-event timezone conversion, the events are sorted ascending by
start time.  `sort.Slice` is modelled by insertion sort (any correct sort
satisfies the same contract since `sort.Slice` gives no stability
guarantee). -/
def fetchEventsPure (events : List Event) : List Event :=
  List.insertionSort eventLE events

/-- The per-event fragment of calendar `generateHTML` (lines 107-125),
with the date rendering `Format("January 02, 2006")` supplied as `fmtDate`. -/
def eventFragment (fmtDate : Int → List Char) (e : Event) : List Char :=
  "\n\t\t<div class=\"event\">\n\t\t  <h2><strong>".toList ++ e.Summary ++
  "</strong></h2>\n\t\t  <p><b>Event Start:</b> ".toList ++ fmtDate e.Start ++
  "</p>\n\t\t  <p><b>Event End:</b> ".toList ++ fmtDate e.End ++
  "</p>\n\t\t  <br>\n\t\t  <p>Click the button below for more information.</p>\n\t\t  <a href=\"https://www.gomotionapp.com/team/cadas/controller/cms/admin/index?team=cadas#/calendar-team-events\" \n\t\t     target=\"_blank\" \n\t\t     rel=\"noopener noreferrer\" \n\t\t     class=\"btn btn-primary\">\n\t\t    More Details\n\t\t  </a>\n\t\t</div>\n\t\t<br><br>".toList

/-- Literal written before the past-events block (lines 138-140). -/
def collapsibleHeader : List Char :=
  "\n\t\t<button type=\"button\" class=\"collapsible\">Click for Past Events</button>\n\t\t<div class=\"content\" style=\"display: none;\">".toList

/-- Literal written after the past-events block (lines 142-152). -/
def collapsibleFooter : List Char :=
  "\n\t\t</div>\n\t\t<br>\n\t\t<script>\n\t\t  document.querySelectorAll(\x27.collapsible\x27).forEach(button => \x7b\n\t\t    button.addEventListener(\x27click\x27, () => \x7b\n\t\t      const content = button.nextElementSibling;\n\t\t      content.style.display = content.style.display === \x27block\x27 ? \x27none\x27 : \x27block\x27;\n\t\t    \x7d);\n\t\t  \x7d);\n\t\t</script>".toList

/-- The event loop of calendar `generateHTML` (lines 106-132): each event's
fragment is appended to the `past` builder when `event.End.Before(now)`
and to the `upcoming` builder otherwise. -/
def genCalLoop (fmtDate : Int → List Char) (now : Int) :
    List Event → List Char × List Char → List Char × List Char
  | [], acc => acc
  | e :: rest, (up, past) =>
    if e.End < now then genCalLoop fmtDate now rest (up, past ++ eventFragment fmtDate e)
    else genCalLoop fmtDate now rest (up ++ eventFragment fmtDate e, past)

/-- Calendar `generateHTML` (lines 101-156): upcoming fragments first,
then, when the past builder is nonempty, the collapsible past-events
section. -/
def generateCalendarHTML (fmtDate : Int → List Char) (events : List Event) (now : Int) : List Char :=
  let acc := genCalLoop fmtDate now events ([], [])
  acc.1 ++ (if 0 < acc.2.length then collapsibleHeader ++ acc.2 ++ collapsibleFooter else [])

/-- Order in which `generateHTML` renders events: the upcoming block
(events with `¬ End < now`) in list order, then the past block. -/
def renderOrder (events : List Event) (now : Int) : List Event :=
  events.filter (fun e => !(decide (e.End < now))) ++ events.filter (fun e => decide (e.End < now))

/-- `x` occurs in `s` strictly before the first occurrence of `y`. -/
def occursBefore (s x y : List Char) : Bool :=
  match goIndexN s x, goIndexN s y with
  | some a, some b => a < b
  | _, _ => false

/-- Civil components of a Go `time.Time` produced by `time.Parse`
(wall-clock fields; the zone offset only affects the instant, which the
formatting paths below never use). -/
structure GoTime where
  year : Nat
  month : Nat
  day : Nat
  hour : Nat
  minute : Nat
  second : Nat
deriving DecidableEq, Repr

/-- Two-digit number field of a Go time layout. -/
def parse2 : List Char → Option (Nat × List Char)
  | a :: b :: rest =>
    if a.isDigit && b.isDigit then some ((a.toNat - 48) * 10 + (b.toNat - 48), rest) else none
  | _ => none

/-- Four-digit number field of a Go time layout. -/
def parse4 : List Char → Option (Nat × List Char)
  | a :: b :: c :: d :: rest =>
    if a.isDigit && b.isDigit && c.isDigit && d.isDigit then
      some ((((a.toNat - 48) * 10 + (b.toNat - 48)) * 10 + (c.toNat - 48)) * 10 + (d.toNat - 48), rest)
    else none
  | _ => none

/-- One or two digit day field (layout fragment `2`). -/
def parseDay : List Char → Option (Nat × List Char)
  | a :: b :: rest =>
    if a.isDigit && b.isDigit then some ((a.toNat - 48) * 10 + (b.toNat - 48), rest)
    else if a.isDigit then some (a.toNat - 48, b :: rest)
    else none
  | [a] => if a.isDigit then some (a.toNat - 48, []) else none
  | [] => none

/-- Consume one expected literal character. -/
def expectChar (c : Char) : List Char → Option (List Char)
  | a :: rest => if a = c then some rest else none
  | [] => none

/-- Go leap-year rule (`isLeap` in the time package). -/
def isLeapYear (y : Nat) : Bool :=
  (y % 4 == 0 && y % 100 != 0) || y % 400 == 0

/-- Days in a month, as validated by Go `time.Parse`. -/
def daysInMonth (y mo : Nat) : Nat :=
  if mo = 2 then (if isLeapYear y then 29 else 28)
  else if mo = 4 ∨ mo = 6 ∨ mo = 9 ∨ mo = 11 then 30
  else 31

/-- Optional fractional-second field accepted by Go `time.Parse` right
after the seconds. -/
def skipFraction : List Char → Option (List Char)
  | '.' :: rest =>
    if (rest.takeWhile Char.isDigit) = [] then none else some (rest.dropWhile Char.isDigit)
  | s => some s

/-- Zone field of the RFC3339 layout (`Z07:00`): `Z` or `±hh:mm`. -/
def parseZone : List Char → Option (List Char)
  | 'Z' :: rest => some rest
  | c :: rest =>
    if c = '+' ∨ c = '-' then
      match parse2 rest with
      | some (h, rest) =>
        match expectChar ':' rest with
        | some rest =>
          match parse2 rest with
          | some (m, rest) => if h ≤ 23 ∧ m ≤ 59 then some rest else none
          | none => none
        | none => none
      | none => none
    else none
  | [] => none

/-- Go `time.Parse(time.RFC3339, s)`: layout
`2006-01-02T15:04:05Z07:00` with optional fractional seconds and field
range validation; `none` models a parse error. -/
def parseRFC3339 (s : List Char) : Option GoTime := do
  let (y, s) ← parse4 s
  let s ← expectChar '-' s
  let (mo, s) ← parse2 s
  let s ← expectChar '-' s
  let (d, s) ← parse2 s
  let s ← expectChar 'T' s
  let (h, s) ← parse2 s
  let s ← expectChar ':' s
  let (mi, s) ← parse2 s
  let s ← expectChar ':' s
  let (sec, s) ← parse2 s
  let s ← skipFraction s
  let s ← parseZone s
  if s = [] ∧ 1 ≤ mo ∧ mo ≤ 12 ∧ 1 ≤ d ∧ d ≤ daysInMonth y mo ∧ h ≤ 23 ∧ mi ≤ 59 ∧ sec ≤ 59 then
    some ⟨y, mo, d, h, mi, sec⟩
  else none

/-- Go month names, as printed by the layout word `January`. -/
def monthName : Nat → List Char
  | 1 => "January".toList
  | 2 => "February".toList
  | 3 => "March".toList
  | 4 => "April".toList
  | 5 => "May".toList
  | 6 => "June".toList
  | 7 => "July".toList
  | 8 => "August".toList
  | 9 => "September".toList
  | 10 => "October".toList
  | 11 => "November".toList
  | 12 => "December".toList
  | _ => []

/-- Four-digit zero-padded year (layout `2006`). -/
def pad4 (n : Nat) : List Char :=
  let ds := (Nat.repr n).toList
  List.replicate (4 - ds.length) '0' ++ ds

/-- Go `t.Format("January 2, 2006")` (the `timeFormat` constant of
newsSyncHandler.go): month name, unpadded day, comma, 4-digit year. -/
def formatTimeGo (t : GoTime) : List Char :=
  monthName t.month ++ " ".toList ++ (Nat.repr t.day).toList ++ ", ".toList ++ pad4 t.year

/-- `formatDate` (newsSyncHandler.go lines 195-205): empty timestamp and
parse failures map to `"Unknown Date"`, otherwise the parsed time is
reformatted with `timeFormat`. -/
def formatDate (timestamp : List Char) : List Char :=
  if timestamp = [] then "Unknown Date".toList
  else
    match parseRFC3339 timestamp with
    | some t => formatTimeGo t
    | none => "Unknown Date".toList

/-- A news article (newsSyncHandler.go lines 38-44). -/
structure Article where
  Title : List Char
  Date : List Char
  Author : List Char
  Content : List Char
  URL : List Char
deriving DecidableEq, Repr

/-- Go `time.Parse("January 2, 2006", s)` used by `sortArticlesByDate`:
month name, space, 1-2 digit day, comma, space, 4-digit year, with day
range validation; clock fields are zero. -/
def parseMonthDate (s : List Char) : Option GoTime := do
  let (mo, s) ←
    (List.range 12).findSome? fun k =>
      let nm := monthName (k + 1)
      if nm.isPrefixOf s then some (k + 1, s.drop nm.length) else none
  let s ← expectChar ' ' s
  let (d, s) ← parseDay s
  let s ← expectChar ',' s
  let s ← expectChar ' ' s
  let (y, s) ← parse4 s
  if s = [] ∧ 1 ≤ d ∧ d ≤ daysInMonth y mo then some ⟨y, mo, d, 0, 0, 0⟩ else none

/-- Chronological key of an article's `Date` string: lexicographic
year/month/day, with parse failures mapped to the Go zero time (key `0`,
below every parsed date).  `t1.After(t2)` on such times is exactly `>` on
the keys. -/
def dateKey (a : Article) : Int :=
  match parseMonthDate a.Date with
  | some t => ((t.year * 10000 + t.month * 100 + t.day : Nat) : Int)
  | none => 0

/-- Descending-date order used by `sortArticlesByDate` (lines 247-253). -/
def articleBefore (a b : Article) : Prop := dateKey b ≤ dateKey a

instance : DecidableRel articleBefore := fun a b => inferInstanceAs (Decidable (dateKey b ≤ dateKey a))

instance : IsTotal Article articleBefore := ⟨fun a b => Int.le_total (dateKey b) (dateKey a)⟩

instance : IsTrans Article articleBefore := ⟨fun _ _ _ h h' => Int.le_trans h' h⟩

/-- `sortArticlesByDate`: sort descending by parsed publication date
(`sort.Slice` modelled by insertion sort). -/
def sortArticlesByDate (articles : List Article) : List Article :=
  List.insertionSort articleBefore articles

/-- `processArticles` (newsSyncHandler.go lines 122-156).  The worker
pool fetches every URL exactly once; a failed fetch/parse (`none` from
the `fetchArticle` oracle) is logged and dropped, each success
contributes exactly one article to the collector; the fan-in order is
irrelevant because the collected list is sorted afterwards. -/
def processArticles (fetchArticle : List Char → Option Article) (urls : List (List Char)) :
    List Article :=
  sortArticlesByDate (urls.filterMap fetchArticle)

/-- Per-article fragment of news `generateHTML` (lines 260-267). -/
def articleFragment (a : Article) : List Char :=
  "\n\t\t<div class=\"news-item\">\n\t\t\t<h2 class=\"news-title\"><strong>".toList ++ a.Title ++
  "</strong></h2>\n\t\t\t<p class=\"news-date\">Author: ".toList ++ a.Author ++
  "</p>\n\t\t\t<p class=\"news-date\">Published on ".toList ++ a.Date ++
  "</p>\n\t\t\t<div class=\"news-content\">".toList ++ a.Content ++
  "</div>\n\t\t</div>\n\t\t".toList

/-- News `generateHTML` (lines 255-271). -/
def generateNewsHTML (articles : List Article) : List Char :=
  "\n".toList ++ (articles.map articleFragment).flatten

/-- Observable shape of one news run (main, newsSyncHandler.go lines
46-78): whether the run reached the patch/publish decision
(`updateNewsHTML` invoked), persisted, published, or died in `log.Fatalf`. -/
structure NewsRun where
  reachedPatch : Bool
  persisted : Bool
  published : Bool
  fatalError : Bool
deriving DecidableEq, Repr

/-- Control flow of news `main` after `fetchArticleURLs`: an empty
article list returns early with success (lines 60-63); otherwise the
generated fragment is patched in and publication is gated on `modified`. -/
def newsMain (fetchArticle : List Char → Option Article) (urls : List (List Char))
    (doc : List Char) : NewsRun :=
  let articles := processArticles fetchArticle urls
  if articles = [] then ⟨false, false, false, false⟩
  else
    match updateNewsHTML doc (generateNewsHTML articles) with
    | PatchResult.error _ => ⟨true, false, false, true⟩
    | PatchResult.outOfRange => ⟨true, false, false, true⟩
    | PatchResult.ok changed _ => ⟨true, changed, changed, false⟩

/-- `baseURL` constant of newsSyncHandler.go. -/
def baseURL : List Char := "https://www.gomotionapp.com".toList

/-- Inline node of an article body as seen by the three goquery passes of
`processContent`: an `img` element with its `src`, an `a` element with
href/visible text/target flag, a heading with its inner HTML, or other
markup left untouched by all three passes. -/
inductive CNode where
  | text (s : List Char)
  | img (src : List Char)
  | anchor (href : List Char) (label : List Char) (targetBlank : Bool)
  | heading (level : Nat) (inner : List Char)
deriving DecidableEq, Repr

/-- The src rewrite inside the image pass (lines 215-218): non-empty
sources that do not start with `http` are prefixed with `baseURL`. -/
def rewriteSrc (src : List Char) : List Char :=
  if src ≠ [] ∧ ¬ ("http".toList.isPrefixOf src) then baseURL ++ src else src

/-- The href rewrite inside the link pass (lines 231-234). -/
def rewriteHref (href : List Char) : List Char :=
  if href ≠ [] ∧ ¬ ("http".toList.isPrefixOf href) then baseURL ++ href else href

/-- Image pass of `processContent` (lines 214-220): every `img` is
replaced in the document by `<a href="..." target="_blank">Click to see
image</a>` with the rewritten src. -/
def imgPass (ns : List CNode) : List CNode :=
  ns.map fun n =>
    match n with
    | CNode.img src => CNode.anchor (rewriteSrc src) ("Click to see image".toList) true
    | other => other

/-- Heading pass (lines 223-225): each heading's inner HTML becomes a
`news-paragraph` paragraph around its text. -/
def headingPass (ns : List CNode) : List CNode :=
  ns.map fun n =>
    match n with
    | CNode.heading lvl inner =>
      CNode.heading lvl ("<p class=\"news-paragraph\">".toList ++ inner ++ "</p>".toList)
    | other => other

/-- Link pass (lines 228-236): every `a` element in the document — the
ones replacing images included — gets its visible text overwritten with
the fixed label, its href forced absolute, and `target="_blank"`. -/
def linkPass (ns : List CNode) : List CNode :=
  ns.map fun n =>
    match n with
    | CNode.anchor href _ _ =>
      CNode.anchor (rewriteHref href) ("Click here to be redirected to the link".toList) true
    | other => other

/-- The three DOM passes of `processContent` in source order (the final
regex cleanup collapses whitespace in the serialized string and does not
change the node structure). -/
def processContentNodes (ns : List CNode) : List CNode :=
  linkPass (headingPass (imgPass ns))

/-- Go `strings.TrimSpace`. -/
def trimSpace (s : List Char) : List Char :=
  ((s.dropWhile Char.isWhitespace).reverse.dropWhile Char.isWhitespace).reverse

/-- Article value built by `fetchArticle` (lines 186-192) from the
extracted fields, with the body transformation supplied as `processC`. -/
def mkArticle (processC : List Char → List Char)
    (title dateStr author content articleURL : List Char) : Article :=
  ⟨trimSpace title, formatDate dateStr, trimSpace author, processC content, articleURL⟩

theorem occurs_length_le {sub s : List Char} {n : Nat} (h : Occurs sub s n) :
    n + sub.length ≤ s.length := by
  obtain ⟨p, q, rfl, rfl⟩ := h
  simp only [List.length_append]
  omega

theorem occurs_append_left {sub x : List Char} {n : Nat} (h : Occurs sub x n) (y : List Char) :
    Occurs sub (x ++ y) n := by
  obtain ⟨p, q, rfl, rfl⟩ := h
  exact ⟨p, q ++ y, by simp, rfl⟩

theorem occurs_append_right {sub y : List Char} {n : Nat} (x : List Char) (h : Occurs sub y n) :
    Occurs sub (x ++ y) (x.length + n) := by
  obtain ⟨p, q, rfl, rfl⟩ := h
  exact ⟨x ++ p, q, by simp, by simp⟩

theorem occurs_restrict_left {sub x y : List Char} {m : Nat} (h : Occurs sub (x ++ y) m)
    (hm : m + sub.length ≤ x.length) : Occurs sub x m := by
  obtain ⟨p, q, heq, rfl⟩ := h
  have hpl : (p ++ sub).length ≤ x.length := by
    simp only [List.length_append]
    omega
  have hx : x = ((p ++ sub) ++ q).take x.length := by
    rw [← heq]
    exact (List.take_left x y).symm
  rw [List.take_append_eq_append_take, List.take_of_length_le hpl] at hx
  exact ⟨p, q.take (x.length - (p ++ sub).length), hx, rfl⟩

theorem occurs_restrict_right {sub x y : List Char} {m : Nat} (h : Occurs sub (x ++ y) m)
    (hm : x.length ≤ m) : Occurs sub y (m - x.length) := by
  obtain ⟨p, q, heq, rfl⟩ := h
  have hy : y = ((p ++ sub) ++ q).drop x.length := by
    rw [← heq]
    exact (List.drop_left x y).symm
  rw [List.drop_append_eq_append_drop, List.drop_append_eq_append_drop,
      show x.length - p.length = 0 by omega,
      show x.length - (p ++ sub).length = 0 by simp only [List.length_append]; omega,
      List.drop_zero, List.drop_zero] at hy
  exact ⟨p.drop x.length, q, hy, by simp⟩

theorem occurs_getElem {sub s : List Char} {n k : Nat} (h : Occurs sub s n) (h1 : n ≤ k)
    (h2 : k < n + sub.length) : s[k]? = sub[k - n]? := by
  obtain ⟨p, q, rfl, rfl⟩ := h
  rw [List.append_assoc, List.getElem?_append_right (by omega),
      List.getElem?_append_left (by omega)]

theorem goIndexN_of_prefix {s sub : List Char} (h : sub.isPrefixOf s) :
    goIndexN s sub = some 0 := by
  cases s <;> simp [goIndexN, h]

theorem goIndexN_sound {s sub : List Char} {n : Nat} (h : goIndexN s sub = some n) :
    Occurs sub s n := by
  induction s generalizing n with
  | nil =>
    by_cases hp : sub.isPrefixOf ([] : List Char)
    · rw [goIndexN, if_pos hp] at h
      obtain ⟨t, ht⟩ := List.isPrefixOf_iff_prefix.mp hp
      cases h
      exact ⟨[], t, by simp [← ht], rfl⟩
    · rw [goIndexN, if_neg hp] at h
      cases h
  | cons a t ih =>
    by_cases hp : sub.isPrefixOf (a :: t)
    · rw [goIndexN, if_pos hp] at h
      obtain ⟨u, hu⟩ := List.isPrefixOf_iff_prefix.mp hp
      cases h
      exact ⟨[], u, by simp [← hu], rfl⟩
    · rw [goIndexN, if_neg hp] at h
      simp only [Option.map_eq_some'] at h
      obtain ⟨n', hn', rfl⟩ := h
      obtain ⟨p, q, hs, hl⟩ := ih hn'
      exact ⟨a :: p, q, by simp [hs], by simp [hl]⟩

theorem goIndexN_min {s sub : List Char} {n m : Nat} (h : goIndexN s sub = some n)
    (ho : Occurs sub s m) : n ≤ m := by
  induction s generalizing n m with
  | nil =>
    by_cases hp : sub.isPrefixOf ([] : List Char)
    · rw [goIndexN, if_pos hp] at h
      cases h
      exact Nat.zero_le m
    · rw [goIndexN, if_neg hp] at h
      cases h
  | cons a t ih =>
    by_cases hp : sub.isPrefixOf (a :: t)
    · rw [goIndexN, if_pos hp] at h
      cases h
      exact Nat.zero_le m
    · rw [goIndexN, if_neg hp] at h
      simp only [Option.map_eq_some'] at h
      obtain ⟨n', hn', rfl⟩ := h
      obtain ⟨p, q, hs, hl⟩ := ho
      match p, hs, hl with
      | [], hs, hl =>
        exact absurd (List.isPrefixOf_iff_prefix.mpr ⟨q, by simpa using hs.symm⟩) hp
      | b :: p', hs, hl =>
        have ht : t = p' ++ sub ++ q := by
          simpa using congrArg List.tail hs
        have := ih hn' ⟨p', q, ht, rfl⟩
        simp only [List.length_cons] at hl
        omega

theorem goIndexN_complete {s sub : List Char} {m : Nat} (ho : Occurs sub s m) :
    ∃ n, goIndexN s sub = some n := by
  obtain ⟨p, q, rfl, rfl⟩ := ho
  induction p with
  | nil =>
    exact ⟨0, goIndexN_of_prefix (List.isPrefixOf_iff_prefix.mpr ⟨q, by simp⟩)⟩
  | cons a p ih =>
    by_cases hp : sub.isPrefixOf (a :: (p ++ sub ++ q))
    · exact ⟨0, by simpa using goIndexN_of_prefix hp⟩
    · obtain ⟨n', hn'⟩ := ih
      refine ⟨n' + 1, ?_⟩
      rw [show (a :: p) ++ sub ++ q = a :: (p ++ sub ++ q) by simp,
          goIndexN, if_neg hp, hn']
      rfl

theorem goIndexN_first {s sub : List Char} {n : Nat} (ho : Occurs sub s n)
    (hmin : ∀ m, m < n → ¬ Occurs sub s m) : goIndexN s sub = some n := by
  obtain ⟨k, hk⟩ := goIndexN_complete ho
  rcases Nat.lt_or_ge k n with h | h
  · exact absurd (goIndexN_sound hk) (hmin k h)
  · have : k = n := Nat.le_antisymm (goIndexN_min hk ho) h
    rw [hk, this]

theorem goIndexN_not_occurs {s sub : List Char} {m : Nat} (h : goIndexN s sub = none) :
    ¬ Occurs sub s m := by
  intro ho
  obtain ⟨n, hn⟩ := goIndexN_complete ho
  rw [h] at hn
  cases hn

theorem take_at_occurrence {S html : List Char} {i : Nat} (h : Occurs S html i) :
    html.take (i + S.length) = html.take i ++ S := by
  obtain ⟨p, q, rfl, rfl⟩ := h
  have h1 : ((p ++ S) ++ q).take (p.length + S.length) = p ++ S :=
    List.take_left' (by simp)
  have h2 : ((p ++ S) ++ q).take p.length = p := by
    rw [List.append_assoc]
    exact List.take_left' rfl
  rw [h1, h2]

theorem drop_at_occurrence {E html : List Char} {j : Nat} (h : Occurs E html j) :
    html.drop j = E ++ html.drop (j + E.length) := by
  obtain ⟨p, q, rfl, rfl⟩ := h
  have h1 : ((p ++ E) ++ q).drop p.length = E ++ q := by
    rw [List.append_assoc]
    exact List.drop_left' rfl
  have h2 : ((p ++ E) ++ q).drop (p.length + E.length) = q :=
    List.drop_left' (by simp)
  rw [h1, h2]

theorem calCore_spec {S E html newContent : List Char} {i j : Nat}
    (hS : goIndexN html S = some i) (hE : goIndexN html E = some j) :
    updateHTMLContentCore S E html newContent =
      if calCandidate S html newContent i j = html then PatchResult.ok false html
      else PatchResult.ok true (calCandidate S html newContent i j) := by
  have hSb : i + S.length ≤ html.length := occurs_length_le (goIndexN_sound hS)
  have hEb : j + E.length ≤ html.length := occurs_length_le (goIndexN_sound hE)
  have ht : ((i : Int) + (S.length : Int)).toNat = i + S.length := by omega
  have hgS : goIndex html S = (i : Int) := by rw [goIndex, hS]
  have hgE : goIndex html E = (j : Int) := by rw [goIndex, hE]
  unfold updateHTMLContentCore
  rw [hgS, hgE]
  rw [if_neg (by omega), if_pos (by refine ⟨by omega, by omega, by omega, by omega⟩)]
  rw [ht, Int.toNat_natCast]
  rfl

theorem newsCore_spec {S E html newContent : List Char} {i j : Nat}
    (hS : goIndexN html S = some i) (hE : goIndexN html E = some j) :
    updateNewsHTMLCore S E html newContent =
      if newsCandidate S html newContent i j = html then PatchResult.ok false html
      else PatchResult.ok true (newsCandidate S html newContent i j) := by
  have hSb : i + S.length ≤ html.length := occurs_length_le (goIndexN_sound hS)
  have hEb : j + E.length ≤ html.length := occurs_length_le (goIndexN_sound hE)
  have ht : ((i : Int) + (S.length : Int)).toNat = i + S.length := by omega
  have hgS : goIndex html S = (i : Int) := by rw [goIndex, hS]
  have hgE : goIndex html E = (j : Int) := by rw [goIndex, hE]
  unfold updateNewsHTMLCore
  rw [hgS, hgE]
  rw [if_neg (by omega), if_pos (by refine ⟨by omega, by omega, by omega, by omega⟩)]
  rw [ht, Int.toNat_natCast]
  rfl

/-- C1: the claim says a document missing either delimiter is rejected
with a malformed-document error and `changed=false`.  The code computes
`startIdx = Index + len(startMarker)` before the `== -1` check, so a
document that contains the end marker but not the start marker passes the
check (`startIdx = 24`), and all three patchers happily produce a
corrupted candidate (`changed=true`) instead of failing. -/
theorem c1_missing_start_marker_not_rejected :
    updateHTMLContent ("<!-- END AUTOMATION SCRIPT -->".toList) ("x".toList) =
      PatchResult.ok true ("<!-- END AUTOMATION SCRI\nx\n<!-- END AUTOMATION SCRIPT -->".toList) ∧
    updateNewsHTML ("<!-- END AUTOMATION SCRIPT -->".toList) ("x".toList) =
      PatchResult.ok true ("<!-- END AUTOMATION SCRIx<!-- END AUTOMATION SCRIPT -->".toList) ∧
    updateHTMLFile ("<!-- END AUTOMATION SCRIPT -->".toList) ("x".toList) =
      FileUpdateResult.ok ("<!-- END AUTOMATION SCRI\nx\n<!-- END AUTOMATION SCRIPT -->".toList) := by
  decide

/-- C2 counterexample: the claim's candidate formula
`prefix + startDelim + "\n" + newInner + "\n" + suffixFromEndDelim` fails
for the news patcher, which inserts the new inner content without the two
newlines: on the spec's own scenario document it produces
`"A<!--S-->new<!--E-->B"`, not `"A<!--S-->\nnew\n<!--E-->B"`. -/
theorem c2_counterexample :
    updateNewsHTMLCore ("<!--S-->".toList) ("<!--E-->".toList)
        ("A<!--S-->old<!--E-->B".toList) ("new".toList) =
      PatchResult.ok true ("A<!--S-->new<!--E-->B".toList) ∧
    ("A<!--S-->new<!--E-->B".toList ≠ "A<!--S-->\nnew\n<!--E-->B".toList) := by
  decide

/-- C2 (amended): for every document whose first start-delimiter
occurrence is at `i` and first end-delimiter occurrence at `j`, with the
start delimiter ending before the end delimiter starts, the calendar
patcher's candidate is `prefix + startDelim + "\n" + newInner + "\n" +
suffixFromEndDelim` (and the spec scenario holds for it with
`changed=true`), while the news patcher's candidate omits the two added
newlines: `prefix + startDelim + newInner + suffixFromEndDelim`. -/
theorem c2_amended (S E html newContent : List Char) (i j : Nat)
    (hS : goIndexN html S = some i) (hE : goIndexN html E = some j)
    (hij : i + S.length ≤ j) :
    (∃ c, updateHTMLContentCore S E html newContent =
        PatchResult.ok c (html.take i ++ S ++ ('\n' :: newContent) ++ ('\n' :: html.drop j))) ∧
    (∃ c, updateNewsHTMLCore S E html newContent =
        PatchResult.ok c (html.take i ++ S ++ newContent ++ html.drop j)) ∧
    updateHTMLContentCore ("<!--S-->".toList) ("<!--E-->".toList)
        ("A<!--S-->old<!--E-->B".toList) ("new".toList) =
      PatchResult.ok true ("A<!--S-->\nnew\n<!--E-->B".toList) := by
  have htake := take_at_occurrence (goIndexN_sound hS)
  have hcal : calCandidate S html newContent i j =
      html.take i ++ S ++ ('\n' :: newContent) ++ ('\n' :: html.drop j) := by
    unfold calCandidate
    rw [htake]
  have hnews : newsCandidate S html newContent i j =
      html.take i ++ S ++ newContent ++ html.drop j := by
    unfold newsCandidate
    rw [htake]
  refine ⟨?_, ?_, by decide⟩
  · rw [calCore_spec hS hE]
    by_cases h : calCandidate S html newContent i j = html
    · exact ⟨false, by rw [if_pos h, ← hcal, h]⟩
    · exact ⟨true, by rw [if_neg h, ← hcal]⟩
  · rw [newsCore_spec hS hE]
    by_cases h : newsCandidate S html newContent i j = html
    · exact ⟨false, by rw [if_pos h, ← hnews, h]⟩
    · exact ⟨true, by rw [if_neg h, ← hnews]⟩

/-- C2 witness: the amended theorem applied to the scenario document. -/
theorem c2_witness :
    (∃ c, updateHTMLContentCore ("<!--S-->".toList) ("<!--E-->".toList)
        ("A<!--S-->old<!--E-->B".toList) ("new".toList) =
        PatchResult.ok c (("A<!--S-->old<!--E-->B".toList).take 1 ++ "<!--S-->".toList ++
          ('\n' :: "new".toList) ++ ('\n' :: ("A<!--S-->old<!--E-->B".toList).drop 12))) ∧
    (∃ c, updateNewsHTMLCore ("<!--S-->".toList) ("<!--E-->".toList)
        ("A<!--S-->old<!--E-->B".toList) ("new".toList) =
        PatchResult.ok c (("A<!--S-->old<!--E-->B".toList).take 1 ++ "<!--S-->".toList ++
          "new".toList ++ ("A<!--S-->old<!--E-->B".toList).drop 12)) ∧
    updateHTMLContentCore ("<!--S-->".toList) ("<!--E-->".toList)
        ("A<!--S-->old<!--E-->B".toList) ("new".toList) =
      PatchResult.ok true ("A<!--S-->\nnew\n<!--E-->B".toList) :=
  c2_amended ("<!--S-->".toList) ("<!--E-->".toList) ("A<!--S-->old<!--E-->B".toList)
    ("new".toList) 1 12 (by decide) (by decide) (by decide)

/-- C3: boundary preservation.  For every document whose first
start-delimiter occurrence is at `i` and first end-delimiter occurrence
at `j` (start before end), both the calendar and the news patcher return
a candidate that agrees with the original on everything up to and
including the start delimiter (`take (i + |startDelim|)`) and on the
suffix of length `|html| - j`, i.e. everything from the first byte of the
end delimiter onward. -/
theorem c3_boundary (S E html newContent : List Char) (i j : Nat)
    (hS : goIndexN html S = some i) (hE : goIndexN html E = some j)
    (hij : i + S.length ≤ j) :
    (∃ c cand, updateHTMLContentCore S E html newContent = PatchResult.ok c cand ∧
      cand.take (i + S.length) = html.take (i + S.length) ∧
      cand.drop (cand.length - (html.length - j)) = html.drop j) ∧
    (∃ c cand, updateNewsHTMLCore S E html newContent = PatchResult.ok c cand ∧
      cand.take (i + S.length) = html.take (i + S.length) ∧
      cand.drop (cand.length - (html.length - j)) = html.drop j) := by
  have hSb : i + S.length ≤ html.length := occurs_length_le (goIndexN_sound hS)
  have hA : (html.take (i + S.length)).length = i + S.length := by
    rw [List.length_take]
    omega
  have hlen : ∀ P : List Char, (P ++ html.drop j).length - (html.length - j) = P.length := by
    intro P
    simp only [List.length_append, List.length_drop]
    omega
  constructor
  · have hres : ∃ c, updateHTMLContentCore S E html newContent =
        PatchResult.ok c (calCandidate S html newContent i j) := by
      rw [calCore_spec hS hE]
      by_cases h : calCandidate S html newContent i j = html
      · exact ⟨false, by rw [if_pos h, h]⟩
      · exact ⟨true, if_neg h⟩
    obtain ⟨c, hc⟩ := hres
    refine ⟨c, _, hc, ?_, ?_⟩
    · show (calCandidate S html newContent i j).take (i + S.length) = _
      unfold calCandidate
      rw [List.append_assoc, List.take_left' hA]
    · show (calCandidate S html newContent i j).drop _ = _
      have hre : calCandidate S html newContent i j =
          (html.take (i + S.length) ++ ('\n' :: newContent) ++ ['\n']) ++ html.drop j := by
        unfold calCandidate
        simp [List.append_assoc]
      rw [hre, hlen]
      exact List.drop_left _ _
  · have hres : ∃ c, updateNewsHTMLCore S E html newContent =
        PatchResult.ok c (newsCandidate S html newContent i j) := by
      rw [newsCore_spec hS hE]
      by_cases h : newsCandidate S html newContent i j = html
      · exact ⟨false, by rw [if_pos h, h]⟩
      · exact ⟨true, if_neg h⟩
    obtain ⟨c, hc⟩ := hres
    refine ⟨c, _, hc, ?_, ?_⟩
    · show (newsCandidate S html newContent i j).take (i + S.length) = _
      unfold newsCandidate
      rw [List.append_assoc, List.take_left' hA]
    · show (newsCandidate S html newContent i j).drop _ = _
      have hre : newsCandidate S html newContent i j =
          (html.take (i + S.length) ++ newContent) ++ html.drop j := by
        unfold newsCandidate
        simp [List.append_assoc]
      rw [hre, hlen]
      exact List.drop_left _ _

/-- C3 witness: boundary preservation at the spec's scenario document. -/
theorem c3_witness :
    (∃ c cand, updateHTMLContentCore ("<!--S-->".toList) ("<!--E-->".toList)
        ("A<!--S-->old<!--E-->B".toList) ("new".toList) = PatchResult.ok c cand ∧
      cand.take (1 + ("<!--S-->".toList).length) =
        ("A<!--S-->old<!--E-->B".toList).take (1 + ("<!--S-->".toList).length) ∧
      cand.drop (cand.length - (("A<!--S-->old<!--E-->B".toList).length - 12)) =
        ("A<!--S-->old<!--E-->B".toList).drop 12) ∧
    (∃ c cand, updateNewsHTMLCore ("<!--S-->".toList) ("<!--E-->".toList)
        ("A<!--S-->old<!--E-->B".toList) ("new".toList) = PatchResult.ok c cand ∧
      cand.take (1 + ("<!--S-->".toList).length) =
        ("A<!--S-->old<!--E-->B".toList).take (1 + ("<!--S-->".toList).length) ∧
      cand.drop (cand.length - (("A<!--S-->old<!--E-->B".toList).length - 12)) =
        ("A<!--S-->old<!--E-->B".toList).drop 12) :=
  c3_boundary ("<!--S-->".toList) ("<!--E-->".toList) ("A<!--S-->old<!--E-->B".toList)
    ("new".toList) 1 12 (by decide) (by decide) (by decide)

/-- C5: when the computed candidate equals the existing document, the
patcher returns `changed=false` before reaching truncate/seek/write, and
`main` skips git entirely: the run persists nothing, publishes nothing,
and terminates without a fatal error. -/
theorem c5_noop_guard (html newContent : List Char) (i j : Nat)
    (hS : goIndexN html startMarker = some i) (hE : goIndexN html endMarker = some j)
    (hij : i + startMarker.length ≤ j)
    (heq : calCandidate startMarker html newContent i j = html) :
    updateHTMLContent html newContent = PatchResult.ok false html ∧
    calendarMain html newContent = ⟨false, false, false⟩ := by
  have h1 : updateHTMLContent html newContent = PatchResult.ok false html := by
    unfold updateHTMLContent
    rw [calCore_spec hS hE, if_pos heq]
  refine ⟨h1, ?_⟩
  unfold calendarMain
  rw [h1]

/-- C5 witness: a document whose managed region already holds the new
content is left untouched and unpublished. -/
theorem c5_witness :
    updateHTMLContent
        ("A<!-- START UNDER HERE -->\nnew\n<!-- END AUTOMATION SCRIPT -->B".toList)
        ("new".toList) =
      PatchResult.ok false
        ("A<!-- START UNDER HERE -->\nnew\n<!-- END AUTOMATION SCRIPT -->B".toList) ∧
    calendarMain
        ("A<!-- START UNDER HERE -->\nnew\n<!-- END AUTOMATION SCRIPT -->B".toList)
        ("new".toList) = ⟨false, false, false⟩ :=
  c5_noop_guard ("A<!-- START UNDER HERE -->\nnew\n<!-- END AUTOMATION SCRIPT -->B".toList)
    ("new".toList) 1 31 (by decide) (by decide) (by decide) (by decide)

theorem calCore_idem (S E html newContent : List Char) (i j : Nat)
    (hS : goIndexN html S = some i) (hE : goIndexN html E = some j)
    (hij : i + S.length ≤ j) (hnlE : '\n' ∉ E) (hEne : E ≠ [])
    (hnew : goIndexN newContent E = none) :
    ∃ c, updateHTMLContentCore S E html newContent =
        PatchResult.ok c (calCandidate S html newContent i j) ∧
      updateHTMLContentCore S E (calCandidate S html newContent i j) newContent =
        PatchResult.ok false (calCandidate S html newContent i j) := by
  have hOS := goIndexN_sound hS
  have hOE := goIndexN_sound hE
  have hSb : i + S.length ≤ html.length := occurs_length_le hOS
  have hEb : j + E.length ≤ html.length := occurs_length_le hOE
  have hEpos : 0 < E.length := List.length_pos.mpr hEne
  have hAlen : (html.take (i + S.length)).length = i + S.length := by
    rw [List.length_take]
    omega
  have htake := take_at_occurrence hOS
  have hdrop := drop_at_occurrence hOE
  have hd1 : calCandidate S html newContent i j =
      html.take (i + S.length) ++ (('\n' :: newContent) ++ ('\n' :: html.drop j)) := by
    unfold calCandidate
    rw [List.append_assoc]
  have hd1' : calCandidate S html newContent i j =
      (html.take (i + S.length) ++ ('\n' :: newContent) ++ ['\n']) ++ html.drop j := by
    unfold calCandidate
    simp [List.append_assoc]
  have hPlen : (html.take (i + S.length) ++ ('\n' :: newContent) ++ ['\n']).length
      = i + S.length + 1 + newContent.length + 1 := by
    simp only [List.length_append, List.length_cons, List.length_nil, hAlen]
    omega
  have hSd1 : goIndexN (calCandidate S html newContent i j) S = some i := by
    apply goIndexN_first
    · rw [hd1]
      apply occurs_append_left
      refine ⟨html.take i, [], ?_, ?_⟩
      · rw [htake]
        simp
      · rw [List.length_take]
        omega
    · intro m hm hocc
      rw [hd1] at hocc
      have hx : Occurs S (html.take (i + S.length)) m :=
        occurs_restrict_left hocc (by rw [hAlen]; omega)
      have hh : Occurs S html m := by
        have := occurs_append_left hx (html.drop (i + S.length))
        rwa [List.take_append_drop] at this
      have := goIndexN_min hS hh
      omega
  have hn1 : (calCandidate S html newContent i j)[i + S.length]? = some '\n' := by
    rw [hd1, List.getElem?_append_right (Nat.le_of_eq hAlen), hAlen]
    simp
  have hABlen : (html.take (i + S.length) ++ ('\n' :: newContent)).length
      = i + S.length + 1 + newContent.length := by
    simp only [List.length_append, List.length_cons, hAlen]
    omega
  have hn2 : (calCandidate S html newContent i j)[i + S.length + 1 + newContent.length]? = some '\n' := by
    unfold calCandidate
    rw [List.getElem?_append_right (Nat.le_of_eq hABlen), hABlen]
    simp
  have hEd1 : goIndexN (calCandidate S html newContent i j) E =
      some (i + S.length + 1 + newContent.length + 1) := by
    apply goIndexN_first
    · rw [hd1']
      have hB : Occurs E (html.drop j) 0 :=
        ⟨[], html.drop (j + E.length), by rw [hdrop]; simp, rfl⟩
      have := occurs_append_right (html.take (i + S.length) ++ ('\n' :: newContent) ++ ['\n']) hB
      rwa [hPlen, Nat.add_zero] at this
    · intro m hm hocc
      by_cases h1 : m + E.length ≤ i + S.length
      · have hx : Occurs E (html.take (i + S.length)) m := by
          rw [hd1] at hocc
          exact occurs_restrict_left hocc (by rw [hAlen]; omega)
        have hh : Occurs E html m := by
          have := occurs_append_left hx (html.drop (i + S.length))
          rwa [List.take_append_drop] at this
        have := goIndexN_min hE hh
        omega
      · by_cases h2 : m ≤ i + S.length
        · have := occurs_getElem hocc h2 (by omega)
          rw [hn1] at this
          exact hnlE (List.getElem?_mem this.symm)
        · by_cases h3 : m ≤ i + S.length + 1 + newContent.length
          · by_cases h4 : i + S.length + 1 + newContent.length < m + E.length
            · have := occurs_getElem hocc h3 (by omega)
              rw [hn2] at this
              exact hnlE (List.getElem?_mem this.symm)
            · have hsplit : calCandidate S html newContent i j =
                  (html.take (i + S.length) ++ ['\n']) ++ (newContent ++ ('\n' :: html.drop j)) := by
                unfold calCandidate
                simp [List.append_assoc]
              have hPl : (html.take (i + S.length) ++ ['\n']).length = i + S.length + 1 := by
                simp only [List.length_append, List.length_cons, List.length_nil, hAlen]
              rw [hsplit] at hocc
              have h5 : (html.take (i + S.length) ++ ['\n']).length ≤ m := by
                rw [hPl]
                omega
              have hy := occurs_restrict_right hocc h5
              rw [hPl] at hy
              have hz : Occurs E newContent (m - (i + S.length + 1)) :=
                occurs_restrict_left hy (by omega)
              exact goIndexN_not_occurs hnew hz
          · omega
  have ht1 : (calCandidate S html newContent i j).take (i + S.length) = html.take (i + S.length) := by
    rw [hd1, List.take_left' hAlen]
  have ht2 : (calCandidate S html newContent i j).drop (i + S.length + 1 + newContent.length + 1) =
      html.drop j := by
    rw [hd1', List.drop_left' hPlen]
  have hcand2 : calCandidate S (calCandidate S html newContent i j) newContent i
      (i + S.length + 1 + newContent.length + 1) = calCandidate S html newContent i j := by
    have hshape : calCandidate S (calCandidate S html newContent i j) newContent i
        (i + S.length + 1 + newContent.length + 1) =
        (calCandidate S html newContent i j).take (i + S.length) ++ ('\n' :: newContent) ++
          ('\n' :: (calCandidate S html newContent i j).drop
            (i + S.length + 1 + newContent.length + 1)) := rfl
    rw [hshape, ht1, ht2]
    rfl
  have hfirst : ∃ c, updateHTMLContentCore S E html newContent =
      PatchResult.ok c (calCandidate S html newContent i j) := by
    rw [calCore_spec hS hE]
    by_cases h : calCandidate S html newContent i j = html
    · exact ⟨false, by rw [if_pos h, h]⟩
    · exact ⟨true, if_neg h⟩
  obtain ⟨c, hc⟩ := hfirst
  refine ⟨c, hc, ?_⟩
  rw [calCore_spec hSd1 hEd1, if_pos hcand2]

theorem occurs_within {S E s : List Char} {i m : Nat}
    (hE : Occurs E s m) (hS : Occurs S s i) (hmi : m ≤ i)
    (hcov : i + S.length ≤ m + E.length) : Occurs S E (i - m) := by
  obtain ⟨p, q, rfl, rfl⟩ := hE
  rw [List.append_assoc] at hS
  have h1 : Occurs S (E ++ q) (i - p.length) := occurs_restrict_right hS hmi
  exact occurs_restrict_left h1 (by omega)

theorem occurs_cross_prefix {S E s : List Char} {i m : Nat}
    (hS : Occurs S s i) (hE : Occurs E s m) (him : i ≤ m) (hmi : m ≤ i + S.length)
    (hEL : i + S.length - m ≤ E.length) :
    S.drop (m - i) = E.take (i + S.length - m) := by
  obtain ⟨p, q, rfl, rfl⟩ := hS
  rw [List.append_assoc] at hE
  have hE' : Occurs E (S ++ q) (m - p.length) := occurs_restrict_right hE him
  obtain ⟨p₂, q₂, heq, hl₂⟩ := hE'
  have hd1 : (S ++ q).drop p₂.length = S.drop p₂.length ++ q := by
    rw [List.drop_append_eq_append_drop, show p₂.length - S.length = 0 by omega, List.drop_zero]
  have hd2 : ((p₂ ++ E) ++ q₂).drop p₂.length = E ++ q₂ := by
    rw [List.append_assoc]
    exact List.drop_left' rfl
  have hdropEq : S.drop p₂.length ++ q = E ++ q₂ := by
    rw [← hd1, heq]
    exact hd2
  have hL : (S.drop p₂.length ++ q).take (S.length - p₂.length) = S.drop p₂.length :=
    List.take_left' (by rw [List.length_drop])
  have hR : (E ++ q₂).take (S.length - p₂.length) = E.take (S.length - p₂.length) := by
    rw [List.take_append_eq_append_take, show S.length - p₂.length - E.length = 0 by omega,
      List.take_zero, List.append_nil]
  have hfin : S.drop p₂.length = E.take (S.length - p₂.length) := by
    rw [← hL, hdropEq, hR]
  rw [hl₂] at hfin
  have harg : S.length - (m - p.length) = p.length + S.length - m := by omega
  rw [harg] at hfin
  exact hfin

theorem occurs_overlap_border {E s : List Char} {m k : Nat}
    (h1 : Occurs E s m) (h2 : Occurs E s k) (hmk : m < k) (hk : k < m + E.length) :
    E.drop (k - m) = E.take (E.length - (k - m)) := by
  obtain ⟨p, q, rfl, rfl⟩ := h1
  rw [List.append_assoc] at h2
  have h2' : Occurs E (E ++ q) (k - p.length) := occurs_restrict_right h2 (by omega)
  obtain ⟨p₂, q₂, heq, hl₂⟩ := h2'
  have hL : (E ++ q).take E.length = E := List.take_left' rfl
  have hR : ((p₂ ++ E) ++ q₂).take E.length = p₂ ++ E.take (E.length - p₂.length) := by
    rw [List.append_assoc, List.take_append_eq_append_take,
      List.take_of_length_le (by omega), List.take_append_eq_append_take,
      show E.length - p₂.length - E.length = 0 by omega, List.take_zero, List.append_nil]
  have hEeq : E = p₂ ++ E.take (E.length - p₂.length) := by
    conv_lhs => rw [← hL, heq]
    exact hR
  have hfin : E.drop p₂.length = E.take (E.length - p₂.length) := by
    conv_lhs => rw [hEeq]
    exact List.drop_left' rfl
  rw [hl₂] at hfin
  exact hfin

theorem newsCore_idem (S E html newContent : List Char) (i j : Nat)
    (hS : goIndexN html S = some i) (hE : goIndexN html E = some j)
    (hij : i + S.length ≤ j) (hEne : E ≠ [])
    (hnew : goIndexN newContent E = none)
    (hSinE : goIndexN E S = none)
    (hcross : ∀ d, d < S.length → 0 < d → S.drop d ≠ E.take (S.length - d))
    (hborder : ∀ d, d < E.length → 0 < d → E.drop d ≠ E.take (E.length - d)) :
    ∃ c, updateNewsHTMLCore S E html newContent =
        PatchResult.ok c (newsCandidate S html newContent i j) ∧
      updateNewsHTMLCore S E (newsCandidate S html newContent i j) newContent =
        PatchResult.ok false (newsCandidate S html newContent i j) := by
  have hOS := goIndexN_sound hS
  have hOE := goIndexN_sound hE
  have hSb : i + S.length ≤ html.length := occurs_length_le hOS
  have hEb : j + E.length ≤ html.length := occurs_length_le hOE
  have hEpos : 0 < E.length := List.length_pos.mpr hEne
  have hAlen : (html.take (i + S.length)).length = i + S.length := by
    rw [List.length_take]
    omega
  have htake := take_at_occurrence hOS
  have hdrop := drop_at_occurrence hOE
  have hd1 : newsCandidate S html newContent i j =
      html.take (i + S.length) ++ (newContent ++ html.drop j) := by
    unfold newsCandidate
    rw [List.append_assoc]
  have hABlen : (html.take (i + S.length) ++ newContent).length
      = i + S.length + newContent.length := by
    simp only [List.length_append, hAlen]
  have hOccSd1 : Occurs S (newsCandidate S html newContent i j) i := by
    unfold newsCandidate
    apply occurs_append_left
    apply occurs_append_left
    refine ⟨html.take i, [], ?_, ?_⟩
    · rw [htake]
      simp
    · rw [List.length_take]
      omega
  have hSd1 : goIndexN (newsCandidate S html newContent i j) S = some i := by
    apply goIndexN_first hOccSd1
    intro m hm hocc
    rw [hd1] at hocc
    have hx : Occurs S (html.take (i + S.length)) m :=
      occurs_restrict_left hocc (by rw [hAlen]; omega)
    have hh : Occurs S html m := by
      have := occurs_append_left hx (html.drop (i + S.length))
      rwa [List.take_append_drop] at this
    have := goIndexN_min hS hh
    omega
  have hOccB : Occurs E (html.drop j) 0 :=
    ⟨[], html.drop (j + E.length), by rw [hdrop]; simp, rfl⟩
  have hOccEd1 : Occurs E (newsCandidate S html newContent i j)
      (i + S.length + newContent.length) := by
    have := occurs_append_right (html.take (i + S.length) ++ newContent) hOccB
    rw [hABlen, Nat.add_zero] at this
    exact this
  have hEd1 : goIndexN (newsCandidate S html newContent i j) E =
      some (i + S.length + newContent.length) := by
    apply goIndexN_first hOccEd1
    intro m hm hocc
    by_cases h1 : m + E.length ≤ i + S.length
    · have hx : Occurs E (html.take (i + S.length)) m := by
        rw [hd1] at hocc
        exact occurs_restrict_left hocc (by rw [hAlen]; omega)
      have hh : Occurs E html m := by
        have := occurs_append_left hx (html.drop (i + S.length))
        rwa [List.take_append_drop] at this
      have := goIndexN_min hE hh
      omega
    · by_cases h2 : m < i + S.length
      · by_cases h3 : m ≤ i
        · have hin : Occurs S E (i - m) :=
            occurs_within hocc hOccSd1 h3 (by omega)
          exact goIndexN_not_occurs hSinE hin
        · have hcr : S.drop (m - i) = E.take (i + S.length - m) :=
            occurs_cross_prefix hOccSd1 hocc (by omega) (by omega) (by omega)
          have harg : i + S.length - m = S.length - (m - i) := by omega
          rw [harg] at hcr
          exact hcross (m - i) (by omega) (by omega) hcr
      · by_cases h4 : m + E.length ≤ i + S.length + newContent.length
        · rw [hd1] at hocc
          have hy := occurs_restrict_right hocc (by rw [hAlen]; omega)
          rw [hAlen] at hy
          have hz : Occurs E newContent (m - (i + S.length)) :=
            occurs_restrict_left hy (by omega)
          exact goIndexN_not_occurs hnew hz
        · have hov : E.drop (i + S.length + newContent.length - m) =
              E.take (E.length - (i + S.length + newContent.length - m)) :=
            occurs_overlap_border hocc hOccEd1 hm (by omega)
          exact hborder (i + S.length + newContent.length - m) (by omega) (by omega) hov
  have ht1 : (newsCandidate S html newContent i j).take (i + S.length) =
      html.take (i + S.length) := by
    rw [hd1, List.take_left' hAlen]
  have ht2 : (newsCandidate S html newContent i j).drop (i + S.length + newContent.length) =
      html.drop j := by
    show ((html.take (i + S.length) ++ newContent) ++ html.drop j).drop
      (i + S.length + newContent.length) = html.drop j
    exact List.drop_left' hABlen
  have hcand2 : newsCandidate S (newsCandidate S html newContent i j) newContent i
      (i + S.length + newContent.length) = newsCandidate S html newContent i j := by
    have hshape : newsCandidate S (newsCandidate S html newContent i j) newContent i
        (i + S.length + newContent.length) =
        (newsCandidate S html newContent i j).take (i + S.length) ++ newContent ++
          (newsCandidate S html newContent i j).drop (i + S.length + newContent.length) := rfl
    rw [hshape, ht1, ht2]
    rfl
  have hfirst : ∃ c, updateNewsHTMLCore S E html newContent =
      PatchResult.ok c (newsCandidate S html newContent i j) := by
    rw [newsCore_spec hS hE]
    by_cases h : newsCandidate S html newContent i j = html
    · exact ⟨false, by rw [if_pos h, h]⟩
    · exact ⟨true, if_neg h⟩
  obtain ⟨c, hc⟩ := hfirst
  refine ⟨c, hc, ?_⟩
  rw [newsCore_spec hSd1 hEd1, if_pos hcand2]

/-- C4 counterexample: idempotence fails for "every new inner content".
On the well-formed document consisting of the two markers, with the new
inner content equal to the end marker itself, the second application
finds the end marker inside the freshly inserted region, reports
`changed=true` again, and produces a different (growing) document. -/
theorem c4_counterexample :
    updateHTMLContent
        ("<!-- START UNDER HERE --><!-- END AUTOMATION SCRIPT -->".toList)
        ("<!-- END AUTOMATION SCRIPT -->".toList) =
      PatchResult.ok true
        ("<!-- START UNDER HERE -->\n<!-- END AUTOMATION SCRIPT -->\n<!-- END AUTOMATION SCRIPT -->".toList) ∧
    updateHTMLContent
        ("<!-- START UNDER HERE -->\n<!-- END AUTOMATION SCRIPT -->\n<!-- END AUTOMATION SCRIPT -->".toList)
        ("<!-- END AUTOMATION SCRIPT -->".toList) =
      PatchResult.ok true
        ("<!-- START UNDER HERE -->\n<!-- END AUTOMATION SCRIPT -->\n<!-- END AUTOMATION SCRIPT -->\n<!-- END AUTOMATION SCRIPT -->".toList) ∧
    ("<!-- START UNDER HERE -->\n<!-- END AUTOMATION SCRIPT -->\n<!-- END AUTOMATION SCRIPT -->\n<!-- END AUTOMATION SCRIPT -->".toList ≠
      "<!-- START UNDER HERE -->\n<!-- END AUTOMATION SCRIPT -->\n<!-- END AUTOMATION SCRIPT -->".toList) := by
  decide

/-- C4 (amended): for both patchers — calendar `updateHTMLContent` and
news `updateNewsHTML` — for every document whose first start-marker
occurrence is at `i` and first end-marker occurrence at `j` (start
before end) and every new inner content in which the end marker does
not occur, applying the patch a second time with the same content
returns `changed=false` and a document byte-identical to the first
application's output.  (The news case additionally rests on the concrete
markers having no self-borders or cross-overlaps, checked by `decide`.) -/
theorem c4_amended (html newContent : List Char) (i j : Nat)
    (hS : goIndexN html startMarker = some i) (hE : goIndexN html endMarker = some j)
    (hij : i + startMarker.length ≤ j)
    (hnew : goIndexN newContent endMarker = none) :
    (∃ c d, updateHTMLContent html newContent = PatchResult.ok c d ∧
      updateHTMLContent d newContent = PatchResult.ok false d) ∧
    (∃ c d, updateNewsHTML html newContent = PatchResult.ok c d ∧
      updateNewsHTML d newContent = PatchResult.ok false d) := by
  constructor
  · obtain ⟨c, h1, h2⟩ := calCore_idem startMarker endMarker html newContent i j hS hE hij
      (by decide) (by decide) hnew
    exact ⟨c, calCandidate startMarker html newContent i j, h1, h2⟩
  · obtain ⟨c, h1, h2⟩ := newsCore_idem startMarker endMarker html newContent i j hS hE hij
      (by decide) hnew (by decide) (by decide) (by decide)
    exact ⟨c, newsCandidate startMarker html newContent i j, h1, h2⟩

/-- C4 witness: idempotence of both patchers on a concrete well-formed
document whose new inner content is marker-free. -/
theorem c4_witness :
    (∃ c d, updateHTMLContent
        ("A<!-- START UNDER HERE -->old<!-- END AUTOMATION SCRIPT -->B".toList)
        ("new".toList) = PatchResult.ok c d ∧
      updateHTMLContent d ("new".toList) = PatchResult.ok false d) ∧
    (∃ c d, updateNewsHTML
        ("A<!-- START UNDER HERE -->old<!-- END AUTOMATION SCRIPT -->B".toList)
        ("new".toList) = PatchResult.ok c d ∧
      updateNewsHTML d ("new".toList) = PatchResult.ok false d) :=
  c4_amended ("A<!-- START UNDER HERE -->old<!-- END AUTOMATION SCRIPT -->B".toList)
    ("new".toList) 1 29 (by decide) (by decide) (by decide) (by decide)

theorem genCalLoop_spec (fmtDate : Int → List Char) (now : Int) :
    ∀ (l : List Event) (up past : List Char),
      genCalLoop fmtDate now l (up, past) =
        (up ++ ((l.filter (fun e => !(decide (e.End < now)))).map (eventFragment fmtDate)).flatten,
         past ++ ((l.filter (fun e => decide (e.End < now))).map (eventFragment fmtDate)).flatten) := by
  intro l
  induction l with
  | nil => intro up past; simp [genCalLoop]
  | cons e rest ih =>
    intro up past
    by_cases h : e.End < now
    · simp [genCalLoop, h, ih, List.filter_cons, List.append_assoc]
    · simp [genCalLoop, h, ih, List.filter_cons, List.append_assoc]

/-- C6 counterexample: with one event that started early and ended
(start 0, end 10) and one long-running upcoming event (start 50, end
200), `fetchEvents` sorts them ascending, but `generateHTML` renders the
upcoming event first and the past event afterwards in the collapsible
block, so the adjacent rendered pair across the block boundary has
start 50 followed by start 0 — the claimed ordering fails. -/
theorem c6_counterexample :
    renderOrder (fetchEventsPure [(⟨"b".toList, 0, 10⟩ : Event), ⟨"a".toList, 50, 200⟩]) 100 =
      [⟨"a".toList, 50, 200⟩, ⟨"b".toList, 0, 10⟩] ∧
    ¬ eventLE (⟨"a".toList, 50, 200⟩ : Event) ⟨"b".toList, 0, 10⟩ ∧
    occursBefore
        (generateCalendarHTML (fun _ => [])
          (fetchEventsPure [(⟨"b".toList, 0, 10⟩ : Event), ⟨"a".toList, 50, 200⟩]) 100)
        ("<strong>a</strong>".toList) ("<strong>b</strong>".toList) = true := by
  refine ⟨by decide, by decide, by decide⟩

/-- C6 (amended): `fetchEvents` returns events sorted ascending by start
time, and within each rendered block — the upcoming block and the past
block — adjacent rendered events are in ascending start order; across
the boundary between the upcoming block and the past block the order
need not hold. -/
theorem c6_amended (events : List Event) (now : Int) :
    List.Pairwise eventLE (fetchEventsPure events) ∧
    renderOrder (fetchEventsPure events) now =
      (fetchEventsPure events).filter (fun e => !(decide (e.End < now))) ++
        (fetchEventsPure events).filter (fun e => decide (e.End < now)) ∧
    List.Chain' eventLE ((fetchEventsPure events).filter (fun e => !(decide (e.End < now)))) ∧
    List.Chain' eventLE ((fetchEventsPure events).filter (fun e => decide (e.End < now))) := by
  have hs : List.Pairwise eventLE (fetchEventsPure events) :=
    List.sorted_insertionSort eventLE events
  exact ⟨hs, rfl, (hs.filter _).chain', (hs.filter _).chain'⟩

/-- C7 counterexample: an event with end 10 and `now = 100` has already
ended, yet its summary appears in the assembled fragment (inside the
collapsible past-events section); the claimed freshness filter does not
exist in `generateHTML`, and no "no events" placeholder is produced. -/
theorem c7_counterexample :
    (goIndexN (generateCalendarHTML (fun _ => []) [(⟨"PASTEVT".toList, 0, 10⟩ : Event)] 100)
        ("PASTEVT".toList)).isSome = true ∧
    ((10 : Int) < 100) := by
  refine ⟨by decide, by decide⟩

/-- C7 (amended): events that have ended are not dropped from the
assembled fragment: the fragment is the concatenation of the fragments
of events ending at or after `now`, followed — when at least one event
has ended — by the collapsible past-events section containing the ended
events' fragments; no placeholder is emitted, and an empty event list
yields the empty fragment. -/
theorem c7_amended (fmtDate : Int → List Char) (events : List Event) (now : Int) :
    generateCalendarHTML fmtDate events now =
      ((events.filter (fun e => !(decide (e.End < now)))).map (eventFragment fmtDate)).flatten ++
        (if ((events.filter (fun e => decide (e.End < now))).map (eventFragment fmtDate)).flatten = []
          then []
          else collapsibleHeader ++
            ((events.filter (fun e => decide (e.End < now))).map (eventFragment fmtDate)).flatten ++
            collapsibleFooter) ∧
    generateCalendarHTML fmtDate [] now = [] := by
  constructor
  · unfold generateCalendarHTML
    rw [genCalLoop_spec]
    simp only [List.nil_append]
    by_cases h : ((events.filter (fun e => decide (e.End < now))).map (eventFragment fmtDate)).flatten = []
    · rw [h]
      simp
    · rw [if_neg h, if_pos (List.length_pos.mpr h)]
  · simp [generateCalendarHTML, genCalLoop]

theorem length_filterMap_urls (f : List Char → Option Article) :
    ∀ urls : List (List Char),
      (urls.filterMap f).length = urls.length - (urls.filter (fun u => (f u).isNone)).length := by
  intro urls
  induction urls with
  | nil => rfl
  | cons u rest ih =>
    have hle : (rest.filter (fun u => (f u).isNone)).length ≤ rest.length :=
      List.length_filter_le _ _
    cases hfu : f u with
    | none =>
      simp [List.filterMap_cons, List.filter_cons, hfu, ih]
    | some a =>
      simp [List.filterMap_cons, List.filter_cons, hfu, ih]
      omega

/-- C8 counterexample: with one URL whose fetch fails (N = K = 1),
`main` returns early at the empty-articles check — the run terminates
successfully but never reaches the patch/publish decision, contradicting
the claim that it always proceeds there. -/
theorem c8_counterexample :
    newsMain (fun _ => none) [("u".toList)] [] = ⟨false, false, false, false⟩ ∧
    (newsMain (fun _ => none) [("u".toList)] []).reachedPatch = false := by
  refine ⟨by decide, by decide⟩

/-- C8 (amended): `processArticles` returns exactly N−K articles — a
permutation (re-sorted by date) of the successfully fetched ones, no
success lost or duplicated, failures dropped without aborting; when at
least one article succeeds the run reaches the patch/publish decision,
and when all fail the run terminates successfully without reaching it. -/
theorem c8_amended (fetchArticle : List Char → Option Article) (urls : List (List Char))
    (doc : List Char) :
    (processArticles fetchArticle urls).length =
      urls.length - (urls.filter (fun u => (fetchArticle u).isNone)).length ∧
    (processArticles fetchArticle urls).Perm (urls.filterMap fetchArticle) ∧
    (urls.filterMap fetchArticle ≠ [] →
      (newsMain fetchArticle urls doc).reachedPatch = true) ∧
    (urls.filterMap fetchArticle = [] →
      newsMain fetchArticle urls doc = ⟨false, false, false, false⟩) := by
  have hperm : (processArticles fetchArticle urls).Perm (urls.filterMap fetchArticle) :=
    List.perm_insertionSort _ _
  refine ⟨?_, hperm, ?_, ?_⟩
  · rw [hperm.length_eq]
    exact length_filterMap_urls fetchArticle urls
  · intro hne
    have harts : processArticles fetchArticle urls ≠ [] := by
      intro h0
      apply hne
      have hl := hperm.length_eq
      rw [h0] at hl
      exact List.length_eq_zero.mp hl.symm
    unfold newsMain
    rw [if_neg harts]
    cases updateNewsHTML doc (generateNewsHTML (processArticles fetchArticle urls)) <;> rfl
  · intro heq
    have harts : processArticles fetchArticle urls = [] := by
      apply List.length_eq_zero.mp
      rw [hperm.length_eq, heq]
      rfl
    unfold newsMain
    rw [if_pos harts]

/-- C8 witness: a run with one successfully fetched article reaches the
patch/publish decision. -/
theorem c8_witness :
    (newsMain (fun _ => some ⟨"t".toList, "d".toList, "a".toList, "c".toList, "u".toList⟩)
      [("u".toList)] []).reachedPatch = true :=
  (c8_amended (fun _ => some ⟨"t".toList, "d".toList, "a".toList, "c".toList, "u".toList⟩)
    [("u".toList)] []).2.2.1 (by decide)

/-- C9: the image pass does replace every image with a link labelled
"Click to see image" and an absolutised URL, but the later link-cleanup
pass rewrites the visible text of every anchor in the document —
including the ones just created from images — so in the final
transformed output the image link carries the generic redirect label,
not an image-reference label. -/
theorem c9_image_link_label_clobbered :
    processContentNodes [CNode.img ("/a.png".toList)] =
      [CNode.anchor ("https://www.gomotionapp.com/a.png".toList)
        ("Click here to be redirected to the link".toList) true] ∧
    imgPass [CNode.img ("/a.png".toList)] =
      [CNode.anchor ("https://www.gomotionapp.com/a.png".toList)
        ("Click to see image".toList) true] ∧
    ("Click here to be redirected to the link".toList ≠ "Click to see image".toList) := by
  refine ⟨by decide, by decide, by decide⟩

/-- C10: `formatDate` is total — it returns the parsed timestamp
reformatted in the `"January 2, 2006"` layout when the input is a valid
RFC3339 timestamp and the literal `"Unknown Date"` otherwise (the empty
string included, since the empty string never parses) — and its result
is never empty, so every `Article` built by `fetchArticle` carries a
non-empty `Date` field. -/
theorem c10_formatDate_total (ts title dateStr author content articleURL : List Char)
    (processC : List Char → List Char) :
    formatDate ts =
      (match parseRFC3339 ts with
        | some t => formatTimeGo t
        | none => "Unknown Date".toList) ∧
    formatDate ts ≠ [] ∧
    (mkArticle processC title dateStr author content articleURL).Date ≠ [] ∧
    formatDate ("2024-03-05T10:00:00Z".toList) = "March 5, 2024".toList := by
  have h1 : ∀ s : List Char, formatDate s =
      (match parseRFC3339 s with
        | some t => formatTimeGo t
        | none => "Unknown Date".toList) := by
    intro s
    unfold formatDate
    by_cases h : s = []
    · rw [if_pos h, h]
      rfl
    · rw [if_neg h]
  have hfmt : ∀ t : GoTime, formatTimeGo t ≠ [] := by
    intro t hcontra
    have hlen := congrArg List.length hcontra
    simp only [formatTimeGo, List.length_append, List.length_nil] at hlen
    have : (" ".toList).length = 1 := rfl
    omega
  have h2 : ∀ s : List Char, formatDate s ≠ [] := by
    intro s
    rw [h1 s]
    cases hp : parseRFC3339 s with
    | none => simp
    | some t => simpa using hfmt t
  exact ⟨h1 ts, h2 ts, h2 dateStr, by decide⟩
